import Mathlib

/-!
# Verification of the sentinel-agent coordination and replay-learning core

Shallow embedding of the `MultiAgentCoordinator` and `ReplaySystem` classes.
JavaScript `Map` objects are modelled as insertion-ordered association lists
(`JsMap`), mirroring `Map.prototype.set` (overwrite in place, append when the
key is fresh) and the insertion-order iteration that `Array.from(map.entries())`
and `for ... of` expose.  JavaScript numbers are modelled as `ℚ`; the one place
where the code can produce `NaN` (a `0/0` division) is modelled by an
`Option ℚ` result where `none` stands for the non-finite value.  Asynchronous
execution outcomes are modelled by `Except`, and `Promise.allSettled` results
by the `Settled` type.
-/

/-- Insertion-ordered association list modelling a JavaScript `Map`. -/
abbrev JsMap (α : Type) := List (String × α)

/-- `Map.prototype.set`: overwrite the value in place when the key exists,
append a fresh entry otherwise. -/
def mapSet {α : Type} (m : JsMap α) (k : String) (v : α) : JsMap α :=
  if m.any (fun p => p.1 = k) then
    m.map (fun p => if p.1 = k then (k, v) else p)
  else
    m ++ [(k, v)]

/-- `Map.prototype.get` (`none` models `undefined`). -/
def mapGet {α : Type} (m : JsMap α) (k : String) : Option α :=
  (m.find? (fun p => p.1 = k)).map Prod.snd

/-- In-place mutation of the object stored under key `k` (the
`map.get(k).field++` / `.field += x` idiom): the entry keeps its key, its
value is rewritten; other entries are untouched. -/
def mapAdjust {α : Type} (m : JsMap α) (k : String) (f : α → α) : JsMap α :=
  m.map (fun p => if p.1 = k then (p.1, f p.2) else p)

/-- The `new Map(pairs)` constructor: iterate the pairs in order, `set` each. -/
def mapFromPairs {α : Type} (l : List (String × α)) : JsMap α :=
  l.foldl (fun m p => mapSet m p.1 p.2) []

/-! ## MultiAgentCoordinator -/

/-- The per-agent record stored by `registerAgent`. -/
structure AgentData where
  status : String
  tasksCompleted : Nat
  successRate : ℚ
deriving DecidableEq, Repr

/-- Relation realising the `(a, b) => b[1].successRate - a[1].successRate`
comparator: a stable sort under it orders agents by descending success rate,
ties kept in registration (insertion) order. -/
def agentRel (a b : String × AgentData) : Prop :=
  b.2.successRate ≤ a.2.successRate

instance : DecidableRel agentRel := fun a b =>
  inferInstanceAs (Decidable (b.2.successRate ≤ a.2.successRate))

/-- The body of the `for (const subtask of subtasks)` loop in
`allocateSubtasks`: `agentIndex` advances by one per subtask and the chosen
agent's entry in the `allocations` map is `set` (overwriting any earlier
subtask assigned to the same agent). -/
def allocLoop (readyAgents : List (String × AgentData)) :
    List String → Nat → JsMap String → JsMap String
  | [], _, alloc => alloc
  | subtask :: rest, idx, alloc =>
    if readyAgents.length = 0 then alloc
    else
      let agentId := (readyAgents.getD (idx % readyAgents.length) ("", ⟨"", 0, 0⟩)).1
      allocLoop readyAgents rest (idx + 1) (mapSet alloc agentId subtask)

/-- `MultiAgentCoordinator.allocateSubtasks`: filter the agents map to the
`ready` ones, stable-sort descending by `successRate`, then walk the subtasks
with a cyclic index, `set`ting each into an agent-keyed `Map`. -/
def allocateSubtasks (agents : JsMap AgentData) (subtasks : List String) :
    JsMap String :=
  let readyAgents :=
    List.insertionSort agentRel (agents.filter (fun p => p.2.status = "ready"))
  allocLoop readyAgents subtasks 0 []

/-- One element of a `Promise.allSettled` result array. -/
inductive Settled (α : Type) where
  | fulfilled (value : α)
  | rejected (reason : String)
deriving DecidableEq, Repr

/-- The per-assignment outcome object built by the `.then`/`.catch` chain in
`distributeTask`: `{ agentId, success, result }` on success and
`{ agentId, success: false, error }` on failure (`none` models an absent /
`undefined` field). -/
structure TaskResult where
  agentId : String
  success : Bool
  result : Option String
  error : Option String
deriving DecidableEq, Repr

/-- The promise pushed for one assignment:
`execute(subtask).then(result => ({agentId, success: true, result}))`
`.catch(error => ({agentId, success: false, error}))`.
Both branches fulfil; the promise never rejects. -/
def dispatchOne (agentId : String) (outcome : Except String String) :
    Settled TaskResult :=
  match outcome with
  | .ok r => .fulfilled ⟨agentId, true, some r, none⟩
  | .error e => .fulfilled ⟨agentId, false, none, some e⟩

/-- The settled results that `distributeTask` hands to `aggregateResults`:
allocate, then for each `[agentId, subtask]` entry whose agent is registered,
dispatch and settle.  `exec agentId subtask` is the outcome of the agent
handle's `execute` call (`.error` models a rejected execution promise). -/
def distributeSettled (agents : JsMap AgentData) (subtasks : List String)
    (exec : String → String → Except String String) :
    List (Settled TaskResult) :=
  (allocateSubtasks agents subtasks).filterMap
    (fun p =>
      match mapGet agents p.1 with
      | some _ => some (dispatchOne p.1 (exec p.1 p.2))
      | none => none)

/-- `r.status === 'fulfilled' && r.value.success`. -/
def fulfilledSuccess : Settled TaskResult → Bool
  | .fulfilled v => v.success
  | .rejected _ => false

/-- `r.status === 'rejected' || !r.value.success` (short-circuit). -/
def failedOutcome : Settled TaskResult → Bool
  | .rejected _ => true
  | .fulfilled v => !v.success

/-- `r.status === 'rejected'`. -/
def isRejected {α : Type} : Settled α → Bool
  | .rejected _ => true
  | .fulfilled _ => false

/-- `r.value.result` of a fulfilled entry. -/
def resultField : Settled TaskResult → Option String
  | .fulfilled v => v.result
  | .rejected _ => none

/-- `r.value.error || r.reason`: the reported error of a fulfilled entry,
falling back to the rejection reason of a rejected one. -/
def errorField : Settled TaskResult → Option String
  | .fulfilled v => v.error
  | .rejected reason => some reason

/-- JavaScript division of two non-negative counters: `none` models the
non-finite `0 / 0 = NaN` result, `some` the finite quotient. -/
def jsDiv (a b : Nat) : Option ℚ :=
  if b = 0 then none else some ((a : ℚ) / (b : ℚ))

/-- The aggregate object returned by `aggregateResults`. -/
structure Agg where
  totalTasks : Nat
  successful : Nat
  failed : Nat
  successRate : Option ℚ
  data : List (Option String)
  errors : List (Option String)
deriving DecidableEq, Repr

/-- `MultiAgentCoordinator.aggregateResults`, translated clause by clause;
`successRate` is the unguarded `successful.length / results.length`. -/
def aggregateResults (results : List (Settled TaskResult)) : Agg :=
  let successful := results.filter fulfilledSuccess
  let failed := results.filter failedOutcome
  { totalTasks := results.length
    successful := successful.length
    failed := failed.length
    successRate := jsDiv successful.length results.length
    data := successful.map resultField
    errors := failed.map errorField }

/-! ## ReplaySystem -/

/-- An action event; the core only reads its `type` field. -/
structure ActionEv where
  type : String
deriving DecidableEq, Repr

/-- One `{ count, successTotal }` value of the pattern table. -/
structure PatternStats where
  count : Nat
  successTotal : ℚ
deriving DecidableEq, Repr

/-- The `this.patterns` table. -/
abbrev PMap := JsMap PatternStats

/-- `[a, b, c].join('-')`. -/
def sig3 (a b c : String) : String := a ++ "-" ++ b ++ "-" ++ c

/-- The loop body of `extractPatterns`: slide a width-3 window over the
actions, emit each signature and bump (creating if absent) its table entry. -/
def extractGo : List ActionEv → PMap → List String × PMap
  | a :: b :: c :: rest, pm =>
    let triple := sig3 a.type b.type c.type
    let pm1 := if (mapGet pm triple).isSome then pm else mapSet pm triple ⟨0, 0⟩
    let pm2 := mapAdjust pm1 triple (fun d => ⟨d.count + 1, d.successTotal⟩)
    let next := extractGo (b :: c :: rest) pm2
    (triple :: next.1, next.2)
  | _, pm => ([], pm)

/-- `ReplaySystem.extractPatterns`: returns the signature list and the
updated pattern table (the source mutates `this.patterns` in place). -/
def extractPatterns (actions : List ActionEv) (pm : PMap) : List String × PMap :=
  extractGo actions pm

/-- The signature list of `extractPatterns` on its own (it does not depend on
the table passed in, only the table update does). -/
def pureSigs : List ActionEv → List String
  | a :: b :: c :: rest => sig3 a.type b.type c.type :: pureSigs (b :: c :: rest)
  | _ => []

/-- A recorded session object. -/
structure Session where
  id : String
  gameType : String
  timestamp : String
  actions : List ActionEv
  successRate : ℚ
  patterns : List String
deriving DecidableEq, Repr

/-- The mutable state of a `ReplaySystem` instance relevant to the claims:
the `maxReplays` config, the `this.replays` array and the `this.patterns`
table. -/
structure Store where
  maxReplays : Nat
  replays : List Session
  patterns : PMap
deriving DecidableEq, Repr

/-- The externally supplied data of one `recordSession` call; the generated
random id and clock timestamp are passed in explicitly. -/
structure RecordInput where
  id : String
  gameType : String
  timestamp : String
  actions : List ActionEv
  successRate : ℚ
deriving DecidableEq, Repr

/-- `ReplaySystem.recordSession`: build the session (extracting patterns,
which also updates the table), push it, then `shift()` the single oldest
entry when the length exceeds `maxReplays`. -/
def recordSession (st : Store) (inp : RecordInput) : Store :=
  let ext := extractPatterns inp.actions st.patterns
  let session : Session :=
    ⟨inp.id, inp.gameType, inp.timestamp, inp.actions, inp.successRate, ext.1⟩
  let pushed := st.replays ++ [session]
  let replays := if st.maxReplays < pushed.length then pushed.tail else pushed
  { st with replays := replays, patterns := ext.2 }

/-- A sequence of `recordSession` calls. -/
def recordAll (st : Store) (inputs : List RecordInput) : Store :=
  inputs.foldl recordSession st

/-- The session that a `recordSession` call appends for a given input. -/
def mkSession (inp : RecordInput) : Session :=
  ⟨inp.id, inp.gameType, inp.timestamp, inp.actions, inp.successRate,
    pureSigs inp.actions⟩

/-- The inner loop of `learnFromSuccessfulReplays` for one replay: for each
signature occurrence present in the table, add the replay's `successRate` to
that entry's `successTotal` and count the occurrence. -/
def learnOne (pm : PMap) (sr : ℚ) : List String → PMap × Nat
  | [] => (pm, 0)
  | p :: ps =>
    if (mapGet pm p).isSome then
      let pm1 := mapAdjust pm p (fun d => ⟨d.count, d.successTotal + sr⟩)
      let next := learnOne pm1 sr ps
      (next.1, next.2 + 1)
    else
      learnOne pm sr ps

/-- The outer loop of `learnFromSuccessfulReplays` over the qualifying
replays, threading the table and accumulating `totalPatternsLearned`. -/
def learnList : PMap → List Session → PMap × Nat
  | pm, [] => (pm, 0)
  | pm, r :: rs =>
    let one := learnOne pm r.successRate r.patterns
    let rest := learnList one.1 rs
    (rest.1, one.2 + rest.2)

/-- The statistics object returned by `learnFromSuccessfulReplays`. -/
structure LearnStats where
  successfulReplays : Nat
  patternsLearned : Nat
  totalPatterns : Nat
deriving DecidableEq, Repr

/-- `ReplaySystem.learnFromSuccessfulReplays`: filter the replays by
`successRate >= threshold`, fold the qualifying ones into the table, and
report the statistics. -/
def learnFromSuccessfulReplays (st : Store) (threshold : ℚ) :
    Store × LearnStats :=
  let successfulReplays := st.replays.filter (fun r => threshold ≤ r.successRate)
  let folded := learnList st.patterns successfulReplays
  ({ st with patterns := folded.1 },
    ⟨successfulReplays.length, folded.2, folded.1.length⟩)

/-- One ranked entry returned by `getRecommendedPatterns`. -/
structure PatternScore where
  pattern : String
  successRate : ℚ
  frequency : Nat
deriving DecidableEq, Repr

/-- Relation realising the `(a, b) => b.successRate - a.successRate`
comparator of `getRecommendedPatterns`. -/
def scoreRel (a b : PatternScore) : Prop := b.successRate ≤ a.successRate

instance : DecidableRel scoreRel := fun a b =>
  inferInstanceAs (Decidable (b.successRate ≤ a.successRate))

instance : IsTotal PatternScore scoreRel :=
  ⟨fun a b => le_total b.successRate a.successRate⟩

instance : IsTrans PatternScore scoreRel :=
  ⟨fun _ _ _ h1 h2 => le_trans h2 h1⟩

/-- The `{ pattern, successRate, frequency }` projection of one table entry,
with the guarded `data.count > 0 ? data.successTotal / data.count : 0`. -/
def scoreOf (p : String × PatternStats) : PatternScore :=
  ⟨p.1, if 0 < p.2.count then p.2.successTotal / (p.2.count : ℚ) else 0,
    p.2.count⟩

/-- `ReplaySystem.getRecommendedPatterns`: map the table entries to scores,
stable-sort by descending derived success rate, keep the first `topK`.
`currentContext` is accepted, as in the source, and not read. -/
def getRecommendedPatterns (st : Store) (currentContext : String)
    (topK : Nat) : List PatternScore :=
  ((List.insertionSort scoreRel (st.patterns.map scoreOf)).take topK)

/-- The snapshot object written by `saveReplays`: the timestamp, the full
replay list, and `Array.from(this.patterns.entries())`. -/
structure Snapshot where
  timestamp : String
  replays : List Session
  patterns : List (String × PatternStats)
deriving DecidableEq, Repr

/-- `ReplaySystem.saveReplays` (the serialized payload; the write itself is
the persistence medium's concern). -/
def saveReplays (st : Store) (timestamp : String) : Snapshot :=
  ⟨timestamp, st.replays, st.patterns⟩

/-- The shapes the parsed `data.patterns` field can take in `loadReplays`:
absent or falsy (defaulted to `[]`), a list of key/value pairs (iterable, so
`new Map(...)` succeeds), or a truthy non-iterable value, on which
`new Map(...)` throws. -/
inductive PatternsField where
  | missing
  | pairs (l : List (String × PatternStats))
  | nonIterable
deriving DecidableEq, Repr

/-- The outcome of `fs.readFile` + `JSON.parse` in `loadReplays`: either the
read or the parse throws, or a parsed object with its `replays` field
(absent/falsy modelled by `none`) and its `patterns` field. -/
inductive LoadInput where
  | readError
  | parsed (replays : Option (List Session)) (patterns : PatternsField)
deriving DecidableEq, Repr

/-- `ReplaySystem.loadReplays`, translated statement by statement: inside the
`try`, `this.replays = data.replays || []` executes first, then
`this.patterns = new Map(data.patterns || [])`; a throw from the `Map`
constructor is caught after the first assignment already happened. -/
def loadReplays (st : Store) (input : LoadInput) : Bool × Store :=
  match input with
  | .readError => (false, st)
  | .parsed r p =>
    let replays := r.getD []
    match p with
    | .missing => (true, { st with replays := replays, patterns := [] })
    | .pairs l => (true, { st with replays := replays, patterns := mapFromPairs l })
    | .nonIterable => (false, { st with replays := replays })

/-- A well-formed snapshot, as produced by `saveReplays` and round-tripped
through `JSON.stringify`/`JSON.parse`, presents its `replays` array (an array
is truthy in JavaScript, even when empty) and its `patterns` pair list to
`loadReplays`. -/
def snapshotToInput (s : Snapshot) : LoadInput :=
  .parsed (some s.replays) (.pairs s.patterns)

/-- The `count` recorded for a signature (`0` when the entry is absent). -/
def countIn (pm : PMap) (s : String) : Nat :=
  ((mapGet pm s).map PatternStats.count).getD 0

/-! ## Map model lemmas -/

theorem mapGet_nil {α : Type} (k : String) : mapGet ([] : JsMap α) k = none := rfl

theorem mapGet_isSome_iff_any {α : Type} (m : JsMap α) (k : String) :
    (mapGet m k).isSome = m.any (fun p => p.1 = k) := by
  induction m with
  | nil => rfl
  | cons p m ih =>
    by_cases h : p.1 = k <;>
      simp [mapGet, List.find?_cons, List.any_cons, h] <;>
      simpa [mapGet] using ih

theorem mapGet_map_keyfix {α : Type} (g : String × α → String × α)
    (hg : ∀ p, (g p).1 = p.1) (m : JsMap α) (s : String) :
    mapGet (m.map g) s =
      (List.find? (fun p => decide (p.1 = s)) m).map (fun p => (g p).2) := by
  induction m with
  | nil => rfl
  | cons p m ih =>
    by_cases h : p.1 = s <;>
      simp [mapGet, List.find?_cons, hg, h] at ih ⊢ <;>
      simpa [mapGet] using ih

theorem mapGet_mapAdjust {α : Type} (m : JsMap α) (k : String) (f : α → α)
    (s : String) :
    mapGet (mapAdjust m k f) s =
      if s = k then (mapGet m k).map f else mapGet m s := by
  have hg : ∀ p : String × α, ((if p.1 = k then (p.1, f p.2) else p)).1 = p.1 := by
    intro p; by_cases h : p.1 = k <;> simp [h]
  rw [mapAdjust, mapGet_map_keyfix _ hg]
  by_cases hsk : s = k
  · subst hsk
    unfold mapGet
    cases hfind : List.find? (fun p => decide (p.1 = s)) m with
    | none => simp [hfind]
    | some p =>
      have hp : p.1 = s := by simpa using List.find?_some hfind
      simp [hfind, hp]
  · unfold mapGet
    cases hfind : List.find? (fun p => decide (p.1 = s)) m with
    | none => simp [hfind, if_neg hsk]
    | some p =>
      have hp : p.1 = s := by simpa using List.find?_some hfind
      have : ¬ p.1 = k := fun h => hsk (hp ▸ h)
      simp [hfind, this, if_neg hsk]

theorem mapGet_keyRewrite {α : Type} (m : JsMap α) (k : String) (v : α)
    (s : String) :
    mapGet (m.map (fun p => if p.1 = k then (k, v) else p)) s =
      if s = k then (mapGet m k).map (fun _ => v) else mapGet m s := by
  have hg : ∀ p : String × α, ((if p.1 = k then (k, v) else p)).1 = p.1 := by
    intro p; by_cases h : p.1 = k <;> simp [h]
  rw [mapGet_map_keyfix _ hg]
  by_cases hsk : s = k
  · subst hsk
    unfold mapGet
    cases hfind : List.find? (fun p => decide (p.1 = s)) m with
    | none => simp [hfind]
    | some p =>
      have hp : p.1 = s := by simpa using List.find?_some hfind
      simp [hfind, hp]
  · unfold mapGet
    cases hfind : List.find? (fun p => decide (p.1 = s)) m with
    | none => simp [hfind, if_neg hsk]
    | some p =>
      have hp : p.1 = s := by simpa using List.find?_some hfind
      have : ¬ p.1 = k := fun h => hsk (hp ▸ h)
      simp [hfind, this, if_neg hsk]

theorem mapGet_append {α : Type} (m₁ m₂ : JsMap α) (s : String) :
    mapGet (m₁ ++ m₂) s =
      ((mapGet m₁ s).rec (mapGet m₂ s) (fun v => some v) : Option α) := by
  induction m₁ with
  | nil => simp [mapGet]
  | cons p m ih =>
    by_cases h : p.1 = s <;>
      simp [mapGet, List.find?_cons, h] at ih ⊢ <;>
      simpa [mapGet] using ih

theorem mapGet_mapSet {α : Type} (m : JsMap α) (k : String) (v : α)
    (s : String) :
    mapGet (mapSet m k v) s = if s = k then some v else mapGet m s := by
  unfold mapSet
  by_cases hany : m.any (fun p => p.1 = k)
  · rw [if_pos hany, mapGet_keyRewrite]
    by_cases hsk : s = k
    · have hsome : (mapGet m k).isSome := by rw [mapGet_isSome_iff_any, hany]
      rcases Option.isSome_iff_exists.mp hsome with ⟨w, hw⟩
      simp [hsk, hw]
    · simp [hsk]
  · rw [if_neg hany, mapGet_append]
    have hnone : mapGet m k = none := by
      rw [← Option.not_isSome_iff_eq_none, mapGet_isSome_iff_any]
      simpa using hany
    by_cases hsk : s = k
    · subst hsk
      simp only [mapGet] at hnone
      simp [hnone, mapGet, List.find?_cons]
    · have hks : ¬ k = s := fun h => hsk h.symm
      cases hfind : mapGet m s with
      | none =>
        simp only [mapGet] at hfind
        simp [hfind, mapGet, List.find?_cons, if_neg hsk, hks]
      | some w =>
        simp only [mapGet] at hfind
        simp [hfind, mapGet, if_neg hsk]

theorem mapSet_not_present {α : Type} (m : JsMap α) (k : String) (v : α)
    (h : m.any (fun p => p.1 = k) = false) : mapSet m k v = m ++ [(k, v)] := by
  unfold mapSet
  rw [h]
  simp

/-! ## Pattern extraction lemmas -/

theorem extractGo_fst : ∀ (l : List ActionEv) (pm : PMap),
    (extractGo l pm).1 = pureSigs l
  | [], _ => rfl
  | [_], _ => rfl
  | [_, _], _ => rfl
  | a :: b :: c :: rest, pm => by
    simp only [extractGo, pureSigs]
    exact congrArg _ (extractGo_fst (b :: c :: rest) _)

theorem extractPatterns_fst (actions : List ActionEv) (pm : PMap) :
    (extractPatterns actions pm).1 = pureSigs actions :=
  extractGo_fst actions pm

theorem pureSigs_length : ∀ l : List ActionEv,
    (pureSigs l).length = l.length - 2
  | [] => rfl
  | [_] => rfl
  | [_, _] => rfl
  | _ :: b :: c :: rest => by
    simp only [pureSigs, List.length_cons]
    rw [pureSigs_length (b :: c :: rest)]
    simp only [List.length_cons]
    omega

theorem pureSigs_getElem? :
    ∀ (l : List ActionEv) (i : Nat) (a b c : ActionEv),
      l[i]? = some a → l[i + 1]? = some b → l[i + 2]? = some c →
      (pureSigs l)[i]? = some (sig3 a.type b.type c.type)
  | [], i, _, _, _, ha, _, _ => by simp at ha
  | [_], i, _, _, _, _, hb, _ => by
    rw [List.getElem?_eq_none (by simp)] at hb
    exact absurd hb (by simp)
  | [_, _], i, _, _, _, _, _, hc => by
    rw [List.getElem?_eq_none (by simp)] at hc
    exact absurd hc (by simp)
  | x :: y :: z :: rest, 0, a, b, c, ha, hb, hc => by
    simp at ha hb hc
    subst ha; subst hb; subst hc
    simp [pureSigs]
  | x :: y :: z :: rest, i + 1, a, b, c, ha, hb, hc => by
    simp only [List.getElem?_cons_succ] at ha hb hc
    have := pureSigs_getElem? (y :: z :: rest) i a b c ha
      (by simpa using hb) (by simpa using hc)
    simpa [pureSigs] using this

theorem countIn_ensure (pm : PMap) (t s : String) :
    countIn (if (mapGet pm t).isSome then pm else mapSet pm t ⟨0, 0⟩) s =
      countIn pm s := by
  by_cases h : (mapGet pm t).isSome
  · rw [if_pos h]
  · rw [if_neg h]
    unfold countIn
    rw [mapGet_mapSet]
    by_cases hst : s = t
    · subst hst
      rw [Option.not_isSome_iff_eq_none] at h
      simp [h]
    · rw [if_neg hst]

theorem isSome_ensure (pm : PMap) (t : String) :
    (mapGet (if (mapGet pm t).isSome then pm else mapSet pm t ⟨0, 0⟩) t).isSome := by
  by_cases h : (mapGet pm t).isSome
  · rwa [if_pos h]
  · rw [if_neg h, mapGet_mapSet]
    simp

theorem countIn_bump (pm : PMap) (t s : String)
    (ht : (mapGet pm t).isSome) :
    countIn (mapAdjust pm t (fun d => ⟨d.count + 1, d.successTotal⟩)) s =
      countIn pm s + if s = t then 1 else 0 := by
  unfold countIn
  rw [mapGet_mapAdjust]
  by_cases hst : s = t
  · subst hst
    rcases Option.isSome_iff_exists.mp ht with ⟨w, hw⟩
    simp [hw]
  · simp [hst]

theorem extractGo_countIn : ∀ (l : List ActionEv) (pm : PMap) (s : String),
    countIn (extractGo l pm).2 s = countIn pm s + (pureSigs l).count s
  | [], _, _ => by simp [extractGo, pureSigs]
  | [_], _, _ => by simp [extractGo, pureSigs]
  | [_, _], _, _ => by simp [extractGo, pureSigs]
  | a :: b :: c :: rest, pm, s => by
    simp only [extractGo, pureSigs]
    rw [extractGo_countIn (b :: c :: rest) _ s]
    rw [countIn_bump _ _ _ (isSome_ensure pm _), countIn_ensure]
    rw [List.count_cons]
    rcases eq_or_ne s (sig3 a.type b.type c.type) with h | h
    · simp only [h, if_pos rfl, beq_self_eq_true, if_pos]
      omega
    · simp only [if_neg h, beq_iff_eq, if_neg (Ne.symm h)]
      omega

/-! ## Replay store (record / evict) lemmas -/

theorem pushTrim {α : Type} (l : List α) (x : α) (max : Nat)
    (h : l.length ≤ max) :
    (if max < (l ++ [x]).length then (l ++ [x]).tail else (l ++ [x])) =
      (l ++ [x]).drop (l.length + 1 - max) := by
  simp only [List.length_append, List.length_cons, List.length_nil,
    Nat.zero_add]
  by_cases hc : max < l.length + 1
  · rw [if_pos hc, ← List.drop_one]
    congr 1
    omega
  · rw [if_neg hc]
    have h0 : l.length + 1 - max = 0 := by omega
    rw [h0, List.drop_zero]

theorem recordSession_replays (st : Store) (inp : RecordInput)
    (h : st.replays.length ≤ st.maxReplays) :
    (recordSession st inp).replays =
      (st.replays ++ [mkSession inp]).drop
        (st.replays.length + 1 - st.maxReplays) := by
  have hsess : (⟨inp.id, inp.gameType, inp.timestamp, inp.actions,
      inp.successRate, (extractPatterns inp.actions st.patterns).1⟩ : Session) =
      mkSession inp := by
    simp [mkSession, extractPatterns_fst]
  simp only [recordSession]
  rw [hsess]
  exact pushTrim st.replays (mkSession inp) st.maxReplays h

theorem recordSession_maxReplays (st : Store) (inp : RecordInput) :
    (recordSession st inp).maxReplays = st.maxReplays := rfl

theorem recordAll_maxReplays : ∀ (inputs : List RecordInput) (st : Store),
    (recordAll st inputs).maxReplays = st.maxReplays
  | [], _ => rfl
  | i :: is, st => by
    rw [recordAll, List.foldl_cons]
    exact recordAll_maxReplays is (recordSession st i)

theorem recordAll_replays : ∀ (inputs : List RecordInput) (st : Store),
    st.replays.length ≤ st.maxReplays →
    (recordAll st inputs).replays =
      (st.replays ++ inputs.map mkSession).drop
        (st.replays.length + inputs.length - st.maxReplays)
  | [], st, h => by
    simp [recordAll, Nat.sub_eq_zero_of_le h]
  | i :: is, st, h => by
    have hstep := recordSession_replays st i h
    have hlen : (recordSession st i).replays.length ≤ st.maxReplays := by
      rw [hstep, List.length_drop, List.length_append]
      simp only [List.length_cons, List.length_nil, Nat.zero_add]
      omega
    have ih := recordAll_replays is (recordSession st i)
      (by rw [recordSession_maxReplays]; exact hlen)
    rw [recordAll, List.foldl_cons, ← recordAll] at *
    rw [ih, recordSession_maxReplays, hstep]
    have hd1 : st.replays.length + 1 - st.maxReplays ≤
        (st.replays ++ [mkSession i]).length := by
      rw [List.length_append]; simp only [List.length_cons, List.length_nil,
        Nat.zero_add]; omega
    rw [← List.drop_append_of_le_length hd1, List.drop_drop, List.length_drop,
      List.length_append]
    simp only [List.length_cons, List.length_nil, Nat.zero_add,
      List.length_map, List.append_assoc, List.singleton_append]
    congr 1
    omega

/-! ## Learning lemmas -/

theorem learnOne_get : ∀ (ps : List String) (pm : PMap) (sr : ℚ) (s : String),
    mapGet (learnOne pm sr ps).1 s =
      (mapGet pm s).map
        (fun d => ⟨d.count, d.successTotal + (ps.count s : ℚ) * sr⟩)
  | [], pm, sr, s => by
    simp only [learnOne, List.count_nil]
    cases mapGet pm s <;> simp
  | p :: ps, pm, sr, s => by
    by_cases hp : (mapGet pm p).isSome
    · simp only [learnOne, if_pos hp]
      rw [learnOne_get ps _ sr s, mapGet_mapAdjust]
      by_cases hsp : s = p
      · subst hsp
        rcases Option.isSome_iff_exists.mp hp with ⟨d, hd⟩
        rw [if_pos rfl]
        simp only [hd, Option.map_some', List.count_cons, beq_self_eq_true,
          if_pos rfl, Option.some.injEq, PatternStats.mk.injEq, true_and]
        push_cast
        ring
      · rw [if_neg hsp]
        have hps : p ≠ s := fun h => hsp h.symm
        simp [List.count_cons, hps, hsp]
    · simp only [learnOne, if_neg hp]
      rw [learnOne_get ps pm sr s]
      by_cases hsp : s = p
      · subst hsp
        rw [Option.not_isSome_iff_eq_none] at hp
        simp [hp]
      · have hps : p ≠ s := fun h => hsp h.symm
        simp [List.count_cons, hps, hsp]

theorem learnOne_isSome (ps : List String) (pm : PMap) (sr : ℚ) (s : String) :
    (mapGet (learnOne pm sr ps).1 s).isSome = (mapGet pm s).isSome := by
  rw [learnOne_get]
  cases mapGet pm s <;> simp

theorem learnOne_snd : ∀ (ps : List String) (pm : PMap) (sr : ℚ),
    (learnOne pm sr ps).2 =
      (ps.filter (fun p => (mapGet pm p).isSome)).length
  | [], _, _ => rfl
  | p :: ps, pm, sr => by
    by_cases hp : (mapGet pm p).isSome
    · simp only [learnOne, if_pos hp]
      rw [learnOne_snd ps _ sr]
      have hpt : (fun q => (mapGet (mapAdjust pm p
          (fun d => ⟨d.count, d.successTotal + sr⟩)) q).isSome) =
          (fun q => (mapGet pm q).isSome) := by
        funext q
        rw [mapGet_mapAdjust]
        by_cases hq : q = p
        · subst hq; cases mapGet pm q <;> simp
        · rw [if_neg hq]
      rw [hpt, List.filter_cons, if_pos (by simpa using hp)]
      simp
    · simp only [learnOne, if_neg hp]
      rw [learnOne_snd ps pm sr, List.filter_cons,
        if_neg (by simpa using hp)]

theorem learnOne_length : ∀ (ps : List String) (pm : PMap) (sr : ℚ),
    (learnOne pm sr ps).1.length = pm.length
  | [], _, _ => rfl
  | p :: ps, pm, sr => by
    by_cases hp : (mapGet pm p).isSome
    · simp only [learnOne, if_pos hp]
      rw [learnOne_length ps _ sr]
      simp [mapAdjust]
    · simp only [learnOne, if_neg hp]
      exact learnOne_length ps pm sr

theorem learnList_get : ∀ (rs : List Session) (pm : PMap) (s : String),
    mapGet (learnList pm rs).1 s =
      (mapGet pm s).map
        (fun d => ⟨d.count, d.successTotal +
          ((rs.map (fun r => (r.patterns.count s : ℚ) * r.successRate)).sum)⟩)
  | [], pm, s => by
    simp only [learnList, List.map_nil, List.sum_nil]
    cases mapGet pm s <;> simp
  | r :: rs, pm, s => by
    simp only [learnList]
    rw [learnList_get rs _ s, learnOne_get]
    cases mapGet pm s with
    | none => simp
    | some d =>
      simp only [Option.map_some', List.map_cons, List.sum_cons,
        Option.some.injEq, PatternStats.mk.injEq, true_and]
      ring

theorem learnList_isSome (rs : List Session) (pm : PMap) (s : String) :
    (mapGet (learnList pm rs).1 s).isSome = (mapGet pm s).isSome := by
  rw [learnList_get]
  cases mapGet pm s <;> simp

theorem learnList_snd : ∀ (rs : List Session) (pm : PMap),
    (learnList pm rs).2 =
      (rs.map (fun r =>
        (r.patterns.filter (fun p => (mapGet pm p).isSome)).length)).sum
  | [], _ => rfl
  | r :: rs, pm => by
    simp only [learnList, List.map_cons, List.sum_cons]
    rw [learnOne_snd, learnList_snd rs _]
    congr 1
    have hpt : (fun q => (mapGet (learnOne pm r.successRate r.patterns).1 q).isSome) =
        (fun q => (mapGet pm q).isSome) :=
      funext (learnOne_isSome r.patterns pm r.successRate)
    rw [hpt]

theorem learnList_length : ∀ (rs : List Session) (pm : PMap),
    (learnList pm rs).1.length = pm.length
  | [], _ => rfl
  | r :: rs, pm => by
    simp only [learnList]
    rw [learnList_length rs _, learnOne_length]

/-! ## Snapshot lemmas -/

theorem foldl_mapSet_of_nodup {α : Type} :
    ∀ (l acc : JsMap α), ((acc ++ l).map Prod.fst).Nodup →
      l.foldl (fun m p => mapSet m p.1 p.2) acc = acc ++ l
  | [], acc, _ => by simp
  | p :: l, acc, h => by
    have hdisj : List.Disjoint (acc.map Prod.fst) ((p :: l).map Prod.fst) := by
      apply List.disjoint_of_nodup_append
      rw [← List.map_append]
      exact h
    have hmem : p.1 ∉ acc.map Prod.fst := by
      intro hin
      exact hdisj hin (by simp)
    have hnot : acc.any (fun q => q.1 = p.1) = false := by
      rw [List.any_eq_false]
      intro q hq
      simp only [decide_eq_true_eq]
      intro hq1
      exact hmem (List.mem_map.mpr ⟨q, hq, hq1⟩)
    rw [List.foldl_cons, mapSet_not_present _ _ _ hnot]
    have hrec := foldl_mapSet_of_nodup l (acc ++ [p]) (by simpa using h)
    simpa using hrec

theorem mapFromPairs_of_nodup {α : Type} (l : JsMap α)
    (h : (l.map Prod.fst).Nodup) : mapFromPairs l = l := by
  have hr := foldl_mapSet_of_nodup l [] (by simpa using h)
  simpa [mapFromPairs] using hr

/-! ## Claims -/

/-- **C1** — The claim states that `allocate` with `N > 0` ready agents and
`M` subtasks returns `M` assignments in subtask order (`[A, B, A]` for the
0.9/0.5 scenario).  The code stores assignments in a `Map` keyed by agent id,
so a later subtask assigned to the same agent overwrites the earlier one:
with agents `A` (0.9) and `B` (0.5) and 3 subtasks the allocation is the
2-entry map `[(A, s2), (B, s1)]`, not 3 assignments. -/
theorem claim1_allocate_collapses_on_reused_agent :
    allocateSubtasks
        [("A", ⟨"ready", 0, mkRat 9 10⟩), ("B", ⟨"ready", 0, mkRat 1 2⟩)]
        ["s0", "s1", "s2"] = [("A", "s2"), ("B", "s1")] ∧
    (allocateSubtasks
        [("A", ⟨"ready", 0, mkRat 9 10⟩), ("B", ⟨"ready", 0, mkRat 1 2⟩)]
        ["s0", "s1", "s2"]).length ≠ 3 := by
  exact ⟨by decide, by decide⟩

/-- **C2** — The claim states that aggregation defines `successRate = 0` when
`total.count == 0` and never yields `NaN`.  The code divides unguarded:
on an empty outcome sequence it computes `0 / 0`, the non-finite value
(modelled by `none`), not `0`. -/
theorem claim2_aggregate_empty_successRate_is_nan :
    (aggregateResults []).successRate = none ∧
    (aggregateResults []).totalTasks = 0 ∧
    (aggregateResults []).successRate ≠ some 0 := by
  exact ⟨rfl, rfl, by decide⟩

/-- **C3** — The claim states that a failed load leaves both the replay list
and the pattern table untouched.  In the code `this.replays = data.replays
|| []` runs before `new Map(data.patterns || [])`; on a malformed snapshot
whose `patterns` field is truthy but not iterable the `Map` constructor
throws after the replay list was already overwritten: the call reports
failure (`false`) yet the replay list has changed. -/
theorem claim3_load_partial_overwrite :
    loadReplays ⟨1000, [⟨"s1", "Roblox", "t0", [], mkRat 4 5, []⟩],
        [("m-c-k", ⟨2, 0⟩)]⟩
      (.parsed (some []) .nonIterable) =
      (false, ⟨1000, [], [("m-c-k", ⟨2, 0⟩)]⟩) ∧
    ([] : List Session) ≠ [⟨"s1", "Roblox", "t0", [], mkRat 4 5, []⟩] := by
  exact ⟨by decide, by decide⟩

/-- **C4** — `recordSession` keeps the store FIFO-bounded: starting from any
store within its bound, after recording `inputs` the replay list is the
suffix of `old ++ new sessions` obtained by dropping the oldest entries past
capacity, and in particular never exceeds `maxReplays`.  From an empty store
with `maxReplays + k` insertions this instantiates to dropping exactly the
`k` oldest sessions, the most recent `maxReplays` remaining in insertion
order. -/
theorem claim4_record_fifo_bounded (st : Store) (inputs : List RecordInput)
    (h : st.replays.length ≤ st.maxReplays) :
    (recordAll st inputs).replays =
      (st.replays ++ inputs.map mkSession).drop
        (st.replays.length + inputs.length - st.maxReplays) ∧
    (recordAll st inputs).replays.length ≤ st.maxReplays := by
  refine ⟨recordAll_replays inputs st h, ?_⟩
  rw [recordAll_replays inputs st h, List.length_drop, List.length_append,
    List.length_map]
  omega

/-- Witness for C4: capacity 2, three insertions; the oldest session is
evicted and the last two remain in order. -/
theorem claim4_record_fifo_bounded_witness :
    (recordAll ⟨2, [], []⟩
        [⟨"1", "g", "t1", [], 0⟩, ⟨"2", "g", "t2", [], 0⟩,
         ⟨"3", "g", "t3", [], 0⟩]).replays =
      (([] : List Session) ++
        ([⟨"1", "g", "t1", [], 0⟩, ⟨"2", "g", "t2", [], 0⟩,
          ⟨"3", "g", "t3", [], 0⟩] : List RecordInput).map mkSession).drop
        (([] : List Session).length + 3 - 2) ∧
    (recordAll ⟨2, [], []⟩
        [⟨"1", "g", "t1", [], 0⟩, ⟨"2", "g", "t2", [], 0⟩,
         ⟨"3", "g", "t3", [], 0⟩]).replays.length ≤ 2 :=
  claim4_record_fifo_bounded ⟨2, [], []⟩
    [⟨"1", "g", "t1", [], 0⟩, ⟨"2", "g", "t2", [], 0⟩, ⟨"3", "g", "t3", [], 0⟩]
    (by decide)

/-- **C5** — Pattern extraction on a length-`L` action sequence emits exactly
`L - 2` signatures (`0` for `L < 3`, by truncated subtraction); the signature
at index `i` is `actions[i].type + "-" + actions[i+1].type + "-" +
actions[i+2].type`; every emitted signature bumps the `count` of its table
entry once per occurrence, the entry being created when absent. -/
theorem claim5_extract_signatures (actions : List ActionEv) (pm : PMap) :
    (extractPatterns actions pm).1.length = actions.length - 2 ∧
    (∀ i a b c, actions[i]? = some a → actions[i + 1]? = some b →
      actions[i + 2]? = some c →
      (extractPatterns actions pm).1[i]? = some (sig3 a.type b.type c.type)) ∧
    (∀ s, countIn (extractPatterns actions pm).2 s =
      countIn pm s + (extractPatterns actions pm).1.count s) ∧
    (∀ s, s ∈ (extractPatterns actions pm).1 →
      (mapGet (extractPatterns actions pm).2 s).isSome) := by
  refine ⟨?_, ?_, ?_, ?_⟩
  · rw [extractPatterns_fst]
    exact pureSigs_length actions
  · intro i a b c ha hb hc
    rw [extractPatterns_fst]
    exact pureSigs_getElem? actions i a b c ha hb hc
  · intro s
    have hc : countIn (extractPatterns actions pm).2 s =
        countIn pm s + (pureSigs actions).count s :=
      extractGo_countIn actions pm s
    rw [hc, extractPatterns_fst]
  · intro s hs
    rw [extractPatterns_fst] at hs
    cases hget : mapGet (extractPatterns actions pm).2 s with
    | some _ => simp
    | none =>
      exfalso
      have hc : countIn (extractPatterns actions pm).2 s =
          countIn pm s + (pureSigs actions).count s :=
        extractGo_countIn actions pm s
      have hpos : 0 < (pureSigs actions).count s := List.count_pos_iff_mem.mpr hs
      unfold countIn at hc
      rw [hget] at hc
      simp at hc
      omega

/-- Witness for C5: a 5-action session yields exactly 3 signatures and the
first one is the dash-join of the first three action types. -/
theorem claim5_extract_signatures_witness :
    (extractPatterns [⟨"a"⟩, ⟨"b"⟩, ⟨"c"⟩, ⟨"d"⟩, ⟨"e"⟩] []).1.length = 3 ∧
    (extractPatterns [⟨"a"⟩, ⟨"b"⟩, ⟨"c"⟩, ⟨"d"⟩, ⟨"e"⟩] []).1[0]? =
      some (sig3 "a" "b" "c") := by
  have h := claim5_extract_signatures [⟨"a"⟩, ⟨"b"⟩, ⟨"c"⟩, ⟨"d"⟩, ⟨"e"⟩] []
  exact ⟨h.1, h.2.1 0 ⟨"a"⟩ ⟨"b"⟩ ⟨"c"⟩ rfl rfl rfl⟩

/-- **C6** — Learning from successful replays: the returned statistics count
the qualifying sessions (`successRate ≥ threshold`), the total number of
signature occurrences folded in (only occurrences whose signature exists in
the table), and the table size; each table entry's `successTotal` grows by
the sum, over qualifying sessions, of the session's `successRate` times the
number of occurrences of that signature in the session's pattern list — so
sessions below the threshold contribute nothing and `count`s are untouched. -/
theorem claim6_learn_folds_success_rates (st : Store) (threshold : ℚ) :
    (learnFromSuccessfulReplays st threshold).2.successfulReplays =
      (st.replays.filter (fun r => threshold ≤ r.successRate)).length ∧
    (learnFromSuccessfulReplays st threshold).2.patternsLearned =
      ((st.replays.filter (fun r => threshold ≤ r.successRate)).map
        (fun r => (r.patterns.filter
          (fun p => (mapGet st.patterns p).isSome)).length)).sum ∧
    (learnFromSuccessfulReplays st threshold).2.totalPatterns =
      st.patterns.length ∧
    (∀ s, mapGet (learnFromSuccessfulReplays st threshold).1.patterns s =
      (mapGet st.patterns s).map
        (fun d => ⟨d.count, d.successTotal +
          ((st.replays.filter (fun r => threshold ≤ r.successRate)).map
            (fun r => (r.patterns.count s : ℚ) * r.successRate)).sum⟩)) :=
  ⟨rfl, learnList_snd _ _, learnList_length _ _, fun s => learnList_get _ _ s⟩

/-- **C7** — The recommendation query returns at most `topK` entries, sorted
non-increasingly by derived success rate (`scoreRel`); every returned entry
is the score projection of some table entry, whose derived rate is
`successTotal / count` when `count > 0` and `0` otherwise (the division is
guarded, so no division by zero is performed), and an entry with
`count == 0` has score exactly `0`. -/
theorem claim7_recommend_ranked (st : Store) (ctx : String) (topK : Nat) :
    (getRecommendedPatterns st ctx topK).length ≤ topK ∧
    List.Sorted scoreRel (getRecommendedPatterns st ctx topK) ∧
    (∀ e, e ∈ getRecommendedPatterns st ctx topK →
      ∃ p, p ∈ st.patterns ∧ e = scoreOf p ∧
        (e.frequency = 0 → e.successRate = 0)) := by
  refine ⟨?_, ?_, ?_⟩
  · rw [getRecommendedPatterns, List.length_take]
    exact min_le_left _ _
  · rw [getRecommendedPatterns]
    exact List.Pairwise.sublist (List.take_sublist _ _)
      (List.sorted_insertionSort scoreRel _)
  · intro e he
    rw [getRecommendedPatterns] at he
    have he2 : e ∈ List.insertionSort scoreRel (st.patterns.map scoreOf) :=
      List.mem_of_mem_take he
    rw [List.mem_insertionSort] at he2
    rcases List.mem_map.mp he2 with ⟨p, hp, hpe⟩
    refine ⟨p, hp, hpe.symm, ?_⟩
    intro hf
    rw [← hpe] at hf ⊢
    simp only [scoreOf] at hf ⊢
    simp [hf]

/-- Witness for C7: a one-entry table with `count = 0`; the returned entry is
the zero-scored projection of that entry. -/
theorem claim7_recommend_ranked_witness :
    (getRecommendedPatterns ⟨1000, [], [("x", ⟨0, 0⟩)]⟩ "" 5).length ≤ 5 ∧
    (∃ p, p ∈ ([("x", ⟨0, 0⟩)] : PMap) ∧
      (⟨"x", 0, 0⟩ : PatternScore) = scoreOf p ∧
      ((⟨"x", 0, 0⟩ : PatternScore).frequency = 0 →
        (⟨"x", 0, 0⟩ : PatternScore).successRate = 0)) := by
  have h := claim7_recommend_ranked ⟨1000, [], [("x", ⟨0, 0⟩)]⟩ "" 5
  exact ⟨h.1, h.2.2 ⟨"x", 0, 0⟩ (by decide)⟩

/-- **C8** — Saving a store and loading the resulting snapshot reproduces the
same session list and the same pattern table (the snapshot keys are distinct,
as the table's `set`-discipline guarantees); only fields outside the
snapshot — the configuration, here `maxReplays` — keep the loading store's
values. -/
theorem claim8_save_load_roundtrip (st : Store) (ts : String) (st0 : Store)
    (h : (st.patterns.map Prod.fst).Nodup) :
    loadReplays st0 (snapshotToInput (saveReplays st ts)) =
      (true, { st0 with replays := st.replays, patterns := st.patterns }) := by
  simp [loadReplays, snapshotToInput, saveReplays,
    mapFromPairs_of_nodup st.patterns h]

/-- Witness for C8: a store with one session and a two-entry pattern table
survives the round trip; the target store's `maxReplays` is kept. -/
theorem claim8_save_load_roundtrip_witness :
    loadReplays ⟨5, [], []⟩
        (snapshotToInput (saveReplays
          ⟨3, [⟨"s", "g", "t", [], 0, ["m-c-k"]⟩],
            [("m-c-k", ⟨1, 0⟩), ("c-k-m", ⟨2, 0⟩)]⟩ "ts")) =
      (true, ⟨5, [⟨"s", "g", "t", [], 0, ["m-c-k"]⟩],
        [("m-c-k", ⟨1, 0⟩), ("c-k-m", ⟨2, 0⟩)]⟩) :=
  claim8_save_load_roundtrip
    ⟨3, [⟨"s", "g", "t", [], 0, ["m-c-k"]⟩],
      [("m-c-k", ⟨1, 0⟩), ("c-k-m", ⟨2, 0⟩)]⟩ "ts" ⟨5, [], []⟩ (by decide)

/-- **C9** — Every promise dispatched by `distributeTask` carries a `.catch`
that converts a fault into a fulfilled failure outcome, so every settled
result is `fulfilled`, the `rejected` filter branch of `aggregateResults`
matches nothing, and the `errors` list coincides with the one computed
without the `r.reason` fallback (the fallback is unreachable). -/
theorem claim9_all_results_fulfilled (agents : JsMap AgentData)
    (subtasks : List String)
    (exec : String → String → Except String String) :
    (∀ r, r ∈ distributeSettled agents subtasks exec →
      ∃ v, r = Settled.fulfilled v) ∧
    (distributeSettled agents subtasks exec).filter
      (fun r => isRejected r) = [] ∧
    (aggregateResults (distributeSettled agents subtasks exec)).errors =
      ((distributeSettled agents subtasks exec).filter failedOutcome).map
        (fun r => match r with
          | Settled.fulfilled v => v.error
          | Settled.rejected _ => none) := by
  have hful : ∀ r ∈ distributeSettled agents subtasks exec,
      ∃ v, r = Settled.fulfilled v := by
    intro r hr
    rcases List.mem_filterMap.mp hr with ⟨p, hp, hpr⟩
    cases hma : mapGet agents p.1 with
    | none =>
      rw [hma] at hpr
      exact absurd hpr (by simp)
    | some a =>
      rw [hma] at hpr
      simp only [Option.some.injEq] at hpr
      subst hpr
      cases hexec : exec p.1 p.2 with
      | ok v => exact ⟨_, rfl⟩
      | error e => exact ⟨_, rfl⟩
  refine ⟨hful, ?_, ?_⟩
  · rw [List.filter_eq_nil]
    intro r hr
    rcases hful r hr with ⟨v, rfl⟩
    simp [isRejected]
  · simp only [aggregateResults]
    apply List.map_congr_left
    intro r hr
    rcases hful r (List.mem_of_mem_filter hr) with ⟨v, rfl⟩
    rfl

/-- Witness for C9: one ready agent and one subtask executing successfully;
the single settled result is fulfilled and nothing is rejected. -/
theorem claim9_all_results_fulfilled_witness :
    (∃ v, (Settled.fulfilled (⟨"A", true, some "ok", none⟩ : TaskResult)) =
      Settled.fulfilled v) ∧
    (distributeSettled [("A", ⟨"ready", 0, 1⟩)] ["s0"]
      (fun _ _ => .ok "ok")).filter (fun r => isRejected r) = [] := by
  have h := claim9_all_results_fulfilled [("A", ⟨"ready", 0, 1⟩)] ["s0"]
    (fun _ _ => .ok "ok")
  exact ⟨h.1 _ (by decide), h.2.1⟩

/-- **C10** — `getRecommendedPatterns` never reads its `currentContext`
argument: two calls on the same store and `topK` with different contexts
return identical results. -/
theorem claim10_recommend_ignores_context (st : Store) (c1 c2 : String)
    (topK : Nat) :
    getRecommendedPatterns st c1 topK = getRecommendedPatterns st c2 topK :=
  rfl
